import Mathlib

/-!
Verification of the `apdex` crate (`src/lib.rs`): the `Apdex` accumulator,
its sample classification, score, rating word, hit-rate adjustment and
Uniform Output text rendering.

IEEE `f64` values are shallowly embedded as the inductive `F`: NaN, a signed
infinity, or a finite rational. All comparisons and arithmetic the source
performs at the inputs the claims exercise are exact in `f64` (comparisons,
multiplication by 4.0, the hit-rate expression at small counts), so finite
arithmetic is modelled exactly on `ℚ`; NaN/infinity propagation and the
saturating `as u64` cast follow the IEEE/Rust semantics. The `u64` counters
are modelled as `ℕ` (the claims live far below 2^64).
-/

/-- Model of an `f64` value: NaN, an infinity (`true` = `+∞`), or a finite
rational. -/
inductive F where
  | nan : F
  | inf : Bool → F
  | fin : ℚ → F
deriving DecidableEq, Repr

namespace F

/-- `f64` `<=`: false whenever either operand is NaN. -/
def le : F → F → Bool
  | .nan, _ => false
  | _, .nan => false
  | .inf s, .inf t => !s || t
  | .inf s, .fin _ => !s
  | .fin _, .inf t => t
  | .fin a, .fin b => decide (a ≤ b)

/-- `f64` `<`: false whenever either operand is NaN. -/
def lt : F → F → Bool
  | .nan, _ => false
  | _, .nan => false
  | .inf s, .inf t => !s && t
  | .inf s, .fin _ => !s
  | .fin _, .inf t => t
  | .fin a, .fin b => decide (a < b)

/-- `f64` addition (exact on finite operands). -/
def add : F → F → F
  | .nan, _ => .nan
  | _, .nan => .nan
  | .inf s, .inf t => if s = t then .inf s else .nan
  | .inf s, .fin _ => .inf s
  | .fin _, .inf t => .inf t
  | .fin a, .fin b => .fin (a + b)

/-- `f64` subtraction (exact on finite operands). -/
def sub : F → F → F
  | .nan, _ => .nan
  | _, .nan => .nan
  | .inf s, .inf t => if s = t then .nan else .inf s
  | .inf s, .fin _ => .inf s
  | .fin _, .inf t => .inf (!t)
  | .fin a, .fin b => .fin (a - b)

/-- `f64` multiplication (exact on finite operands). -/
def mul : F → F → F
  | .nan, _ => .nan
  | _, .nan => .nan
  | .inf s, .inf t => .inf (s = t)
  | .inf s, .fin b => if b = 0 then .nan else .inf (s = decide (0 < b))
  | .fin a, .inf t => if a = 0 then .nan else .inf (t = decide (0 < a))
  | .fin a, .fin b => .fin (a * b)

/-- `f64` division (exact on finite operands; `x/0` is `NaN` for `x = 0` and
a signed infinity otherwise, the rational `0` standing for IEEE `+0`). -/
def div : F → F → F
  | .nan, _ => .nan
  | _, .nan => .nan
  | .inf _, .inf _ => .nan
  | .inf s, .fin b => .inf (s = decide (0 ≤ b))
  | .fin _, .inf _ => .fin 0
  | .fin a, .fin b =>
    if b = 0 then (if a = 0 then .nan else .inf (decide (0 ≤ a))) else .fin (a / b)

/-- `f64.ceil`. -/
def ceil : F → F
  | .nan => .nan
  | .inf s => .inf s
  | .fin q => .fin (⌈q⌉ : ℤ)

/-- Rust `as u64` on an `f64`: truncate toward zero, saturate to
`[0, 2^64 - 1]`, NaN to `0`. -/
def toU64 : F → ℕ
  | .nan => 0
  | .inf s => if s then 2 ^ 64 - 1 else 0
  | .fin q => if q < 0 then 0 else min (⌊q⌋.toNat) (2 ^ 64 - 1)

/-- `as f64` on a `u64` (exact below `2^53`, the regime of every claim). -/
def ofU64 (n : ℕ) : F := .fin n

end F

/-- The accumulator `Apdex` of `src/lib.rs`: the Satisfied/Tolerating
threshold in seconds and the three sample counters. -/
structure Apdex where
  threshold : F
  satisfied : ℕ
  tolerating : ℕ
  frustrated : ℕ
deriving DecidableEq, Repr

namespace Apdex

/-- `Apdex::new`: stores the threshold, zeroes the counters. -/
def new (threshold : F) : Apdex :=
  { threshold := threshold, satisfied := 0, tolerating := 0, frustrated := 0 }

/-- `Apdex::default`: `new(4.0)`. -/
def defaultApdex : Apdex := new (.fin 4)

/-- `Apdex::insert`: characterize one sample (`Except Unit F` models
`Result<f64, ()>`; `Err` counts as Frustrated). -/
def insert (a : Apdex) (response_time : Except Unit F) : Apdex :=
  match response_time with
  | .ok response_time =>
    if F.le response_time a.threshold then
      { a with satisfied := a.satisfied + 1 }
    else if F.le response_time (F.mul a.threshold (F.fin 4)) then
      { a with tolerating := a.tolerating + 1 }
    else
      { a with frustrated := a.frustrated + 1 }
  | .error _ => { a with frustrated := a.frustrated + 1 }

/-- `Apdex::with_respnse_times` (name as in the source): fold `insert` over
the samples starting from `new threshold`. -/
def with_respnse_times (threshold : F) (response_times : List (Except Unit F)) : Apdex :=
  response_times.foldl insert (new threshold)

/-- `Apdex::total`. -/
def total (a : Apdex) : ℕ := a.satisfied + a.tolerating + a.frustrated

/-- `Apdex::with_hit_rate`: classify the samples, then add the simulated
cache-hit count `((misses / (1 - rate) - misses).ceil() as u64)` to
`satisfied`. -/
def with_hit_rate (threshold : F) (assumed_hit_rate : F)
    (response_times : List (Except Unit F)) : Apdex :=
  let apdex := with_respnse_times threshold response_times
  let misses := apdex.total
  let hits :=
    (F.sub (F.div (F.ofU64 misses) (F.sub (F.fin 1) assumed_hit_rate)) (F.ofU64 misses)).ceil.toU64
  { apdex with satisfied := apdex.satisfied + hits }

/-- `Apdex::no_samples`. -/
def no_samples (a : Apdex) : Bool := a.total = 0

/-- `Apdex::small_group`. -/
def small_group (a : Apdex) : Bool := 0 < a.total && a.total < 100

/-- `Apdex::score`: `None` with no samples, else
`(satisfied + tolerating / 2.0) / total` in `f64`. -/
def score (a : Apdex) : Option F :=
  if a.no_samples then none
  else some (F.div (F.add (F.ofU64 a.satisfied) (F.div (F.ofU64 a.tolerating) (F.fin 2)))
    (F.ofU64 a.total))

/-- `Apdex::rating_word`. -/
def rating_word (a : Apdex) : String :=
  match a.score with
  | some score =>
    if F.le (F.fin (94 / 100)) score then "Excellent"
    else if F.le (F.fin (85 / 100)) score then "Good"
    else if F.le (F.fin (70 / 100)) score then "Fair"
    else if F.le (F.fin (50 / 100)) score then "Poor"
    else "Unacceptable"
  | none => "NoSample"

end Apdex

/-- Round a rational to the nearest integer, ties to even: the rounding Rust
fixed-precision float formatting applies to the digit after the kept ones. -/
def roundHalfEven (q : ℚ) : ℤ :=
  if q - ⌊q⌋ < 1 / 2 then ⌊q⌋
  else if 1 / 2 < q - ⌊q⌋ then ⌊q⌋ + 1
  else if ⌊q⌋ % 2 = 0 then ⌊q⌋ else ⌊q⌋ + 1

/-- Decimal digits of `n` left-padded with zeros to width `k` (empty when
`k = 0`), used for the fractional part of a fixed-point rendering. -/
def padDigits (n k : ℕ) : String := (toString (10 ^ k + n)).drop 1

/-- Rust `format!` with precision `k` (`{:.k$}`) on a finite `f64` value:
fixed-point decimal with exactly `k` fractional digits, nearest/ties-to-even. -/
def fmtFixedQ (q : ℚ) (k : ℕ) : String :=
  let n := (roundHalfEven (|q| * 10 ^ k)).toNat
  let sign := if q < 0 then "-" else ""
  if k = 0 then sign ++ toString n
  else sign ++ toString (n / 10 ^ k) ++ "." ++ padDigits (n % 10 ^ k) k

/-- Rust `format!` with precision `k` on an `f64`. -/
def F.fmtFixed : F → ℕ → String
  | .nan, _ => "NaN"
  | .inf s, _ => if s then "inf" else "-inf"
  | .fin q, k => fmtFixedQ q k

namespace Apdex

/-- `Apdex::write_threshold`: `" [<threshold>]"` with one decimal below 10
and none otherwise, then `"*"` when the group is small. -/
def write_threshold (a : Apdex) : String :=
  let low_sample_indicator := if a.small_group then "*" else ""
  if F.lt a.threshold (F.fin 10) then
    " [" ++ a.threshold.fmtFixed 1 ++ "]" ++ low_sample_indicator
  else
    " [" ++ a.threshold.fmtFixed 0 ++ "]" ++ low_sample_indicator

/-- `impl fmt::Display for Apdex`: the score to two decimals (or `"NS"`),
then the threshold suffix. -/
def display (a : Apdex) : String :=
  (match a.score with
   | some score => score.fmtFixed 2
   | none => "NS") ++ a.write_threshold

/-- `impl fmt::Display for ApdexRating` (via `score_rating()`): the rating
word, then the threshold suffix. -/
def rating_display (a : Apdex) : String := a.rating_word ++ a.write_threshold

end Apdex

section Helpers

/-- `score` on a non-empty accumulator, computed out to a rational. -/
theorem Apdex.score_eq (a : Apdex) (h : a.total ≠ 0) :
    a.score = some (F.fin (((a.satisfied : ℚ) + (a.tolerating : ℚ) / 2) / (a.total : ℚ))) := by
  have htot : ((a.total : ℚ)) ≠ 0 := Nat.cast_ne_zero.mpr h
  simp [Apdex.score, Apdex.no_samples, h, F.div, F.add, F.ofU64, htot]

/-- The increments `insert` applies to the three counters: a function of the
sample and the threshold only. -/
def classify (th : F) (x : Except Unit F) : ℕ × ℕ × ℕ :=
  match x with
  | .ok t =>
    if F.le t th then (1, 0, 0)
    else if F.le t (F.mul th (F.fin 4)) then (0, 1, 0)
    else (0, 0, 1)
  | .error _ => (0, 0, 1)

/-- `insert` bumps each counter by its `classify` increment and keeps the
threshold. -/
theorem Apdex.insert_eq (a : Apdex) (x : Except Unit F) :
    a.insert x =
      { threshold := a.threshold,
        satisfied := a.satisfied + (classify a.threshold x).1,
        tolerating := a.tolerating + (classify a.threshold x).2.1,
        frustrated := a.frustrated + (classify a.threshold x).2.2 } := by
  cases x <;> simp only [Apdex.insert, classify] <;> first | (split_ifs <;> simp) | simp

/-- Inserting a sample never changes the threshold. -/
theorem Apdex.insert_threshold (a : Apdex) (x : Except Unit F) :
    (a.insert x).threshold = a.threshold := by
  rw [Apdex.insert_eq]

/-- Two consecutive `insert`s commute. -/
theorem Apdex.insert_comm (a : Apdex) (x y : Except Unit F) :
    (a.insert x).insert y = (a.insert y).insert x := by
  rw [Apdex.insert_eq a x, Apdex.insert_eq _ y, Apdex.insert_eq a y, Apdex.insert_eq _ x]
  simp only [Apdex.mk.injEq, true_and]
  refine ⟨?_, ?_, ?_⟩ <;> omega

/-- Folding `insert` is invariant under permutation of the samples. -/
theorem Apdex.foldl_insert_perm (a : Apdex) {l1 l2 : List (Except Unit F)}
    (h : l1.Perm l2) : l1.foldl Apdex.insert a = l2.foldl Apdex.insert a := by
  induction h generalizing a with
  | nil => rfl
  | cons x _ ih => simp only [List.foldl_cons]; exact ih _
  | swap x y l => simp only [List.foldl_cons, Apdex.insert_comm]
  | trans _ _ ih1 ih2 => exact (ih1 a).trans (ih2 a)

end Helpers

/-- C1: for every accumulator state, `score()` is `None` iff `total() = 0`;
otherwise it is `Some((satisfied + tolerating/2) / total())`, a value in
`[0, 1]`. -/
theorem C1_score (a : Apdex) :
    (a.score = none ↔ a.total = 0) ∧
    (a.total ≠ 0 →
      a.score = some (F.fin (((a.satisfied : ℚ) + (a.tolerating : ℚ) / 2) / (a.total : ℚ))) ∧
      ∀ q : ℚ, a.score = some (F.fin q) → 0 ≤ q ∧ q ≤ 1) := by
  constructor
  · simp [Apdex.score, Apdex.no_samples]
  · intro h
    refine ⟨a.score_eq h, ?_⟩
    intro q hq
    rw [a.score_eq h, Option.some_inj] at hq
    have hq2 : q = ((a.satisfied : ℚ) + (a.tolerating : ℚ) / 2) / (a.total : ℚ) := by
      injection hq.symm
    have htot : (0 : ℚ) < (a.total : ℚ) := by
      exact_mod_cast Nat.pos_of_ne_zero h
    have hnum0 : (0 : ℚ) ≤ (a.satisfied : ℚ) + (a.tolerating : ℚ) / 2 := by positivity
    have hnum1 : (a.satisfied : ℚ) + (a.tolerating : ℚ) / 2 ≤ (a.total : ℚ) := by
      have ht : (0 : ℚ) ≤ (a.tolerating : ℚ) := Nat.cast_nonneg _
      have hf : (0 : ℚ) ≤ (a.frustrated : ℚ) := Nat.cast_nonneg _
      have htot2 : ((a.total : ℕ) : ℚ) =
          (a.satisfied : ℚ) + (a.tolerating : ℚ) + (a.frustrated : ℚ) := by
        simp [Apdex.total]
      rw [htot2]
      linarith
    subst hq2
    exact ⟨div_nonneg hnum0 htot.le, (div_le_one htot).mpr hnum1⟩

/-- C1 witness: a concrete state with one satisfied and one tolerating sample
has `score = Some 0.75 ∈ [0,1]`. -/
theorem C1_score_witness :
    ({ threshold := F.fin 4, satisfied := 1, tolerating := 1, frustrated := 0 : Apdex}.total ≠ 0) ∧
    ({ threshold := F.fin 4, satisfied := 1, tolerating := 1, frustrated := 0 : Apdex}.score =
      some (F.fin (3 / 4))) ∧
    (0 : ℚ) ≤ 3 / 4 ∧ (3 / 4 : ℚ) ≤ 1 := by
  have h : ({ threshold := F.fin 4, satisfied := 1, tolerating := 1, frustrated := 0 : Apdex}.total ≠ 0) := by
    decide
  have hmain := (C1_score { threshold := F.fin 4, satisfied := 1, tolerating := 1, frustrated := 0 }).2 h
  have hs : ({ threshold := F.fin 4, satisfied := 1, tolerating := 1, frustrated := 0 : Apdex}.score =
      some (F.fin (3 / 4))) := by
    rw [hmain.1]; norm_num [Apdex.total]
  exact ⟨h, hs, (hmain.2 (3 / 4) hs).1, (hmain.2 (3 / 4) hs).2⟩

/-- C2: with a positive threshold, `insert` puts each sample in exactly one
bucket — `Err` into frustrated; an `Ok` time `t ≤ threshold` (boundary
included) into satisfied; `threshold < t ≤ 4 × threshold` (upper boundary
included) into tolerating; `t > 4 × threshold` into frustrated — and changes
no other field. -/
theorem C2_insert_classification (a : Apdex) (th : ℚ) (hth : a.threshold = F.fin th)
    (hpos : 0 < th) :
    (∀ e : Unit, a.insert (.error e) = { a with frustrated := a.frustrated + 1 }) ∧
    (∀ t : ℚ, t ≤ th → a.insert (.ok (F.fin t)) = { a with satisfied := a.satisfied + 1 }) ∧
    (∀ t : ℚ, th < t → t ≤ 4 * th →
      a.insert (.ok (F.fin t)) = { a with tolerating := a.tolerating + 1 }) ∧
    (∀ t : ℚ, 4 * th < t →
      a.insert (.ok (F.fin t)) = { a with frustrated := a.frustrated + 1 }) := by
  refine ⟨fun e => rfl, ?_, ?_, ?_⟩
  · intro t hle
    simp [Apdex.insert, hth, F.le, hle]
  · intro t hgt hle
    have h1 : ¬(t ≤ th) := not_le.mpr hgt
    have h2 : t ≤ th * 4 := by linarith
    simp [Apdex.insert, hth, F.le, F.mul, h1, h2]
  · intro t hgt
    have h1 : ¬(t ≤ th) := by push_neg; linarith
    have h2 : ¬(t ≤ th * 4) := by push_neg; linarith
    simp [Apdex.insert, hth, F.le, F.mul, h1, h2]

/-- C2 witness: at threshold 1, the boundary samples 1 (satisfied), 4
(tolerating), a sample 5 (frustrated) and an `Err` land as claimed. -/
theorem C2_insert_classification_witness :
    (Apdex.new (F.fin 1)).insert (.ok (F.fin 1)) =
      { Apdex.new (F.fin 1) with satisfied := (Apdex.new (F.fin 1)).satisfied + 1 } ∧
    (Apdex.new (F.fin 1)).insert (.ok (F.fin 4)) =
      { Apdex.new (F.fin 1) with tolerating := (Apdex.new (F.fin 1)).tolerating + 1 } ∧
    (Apdex.new (F.fin 1)).insert (.ok (F.fin 5)) =
      { Apdex.new (F.fin 1) with frustrated := (Apdex.new (F.fin 1)).frustrated + 1 } ∧
    (Apdex.new (F.fin 1)).insert (.error ()) =
      { Apdex.new (F.fin 1) with frustrated := (Apdex.new (F.fin 1)).frustrated + 1 } := by
  have h := C2_insert_classification (Apdex.new (F.fin 1)) 1 rfl (by norm_num)
  exact ⟨h.2.1 1 (by norm_num), h.2.2.1 4 (by norm_num) (by norm_num),
    h.2.2.2 5 (by norm_num), h.1 ()⟩

/-- C4: `total()` is exactly `satisfied + tolerating + frustrated` after any
sample sequence, and permuting the samples leaves the whole accumulator
unchanged: the multiset of samples determines the counters. -/
theorem C4_total_and_order_independence (th : F) (l1 l2 : List (Except Unit F))
    (h : l1.Perm l2) :
    (∀ l : List (Except Unit F),
      (Apdex.with_respnse_times th l).total =
        (Apdex.with_respnse_times th l).satisfied + (Apdex.with_respnse_times th l).tolerating +
          (Apdex.with_respnse_times th l).frustrated) ∧
    Apdex.with_respnse_times th l1 = Apdex.with_respnse_times th l2 := by
  exact ⟨fun l => rfl, Apdex.foldl_insert_perm _ h⟩

/-- C4 witness: swapping an `Err` and an `Ok 5` sample at threshold 1 gives
the same accumulator. -/
theorem C4_total_and_order_independence_witness :
    (([Except.error (), Except.ok (F.fin 5)] : List (Except Unit F)).Perm
      [Except.ok (F.fin 5), Except.error ()]) ∧
    Apdex.with_respnse_times (F.fin 1) [Except.error (), Except.ok (F.fin 5)] =
      Apdex.with_respnse_times (F.fin 1) [Except.ok (F.fin 5), Except.error ()] := by
  have hperm : (([Except.error (), Except.ok (F.fin 5)] : List (Except Unit F)).Perm
      [Except.ok (F.fin 5), Except.error ()]) := List.Perm.swap _ _ _
  exact ⟨hperm, (C4_total_and_order_independence (F.fin 1) _ _ hperm).2⟩

/-- C8: an `Ok` NaN sample falls through both `≤` tests into frustrated, the
same state change as an `Err` sample, at every threshold. -/
theorem C8_nan_frustrated (a : Apdex) :
    a.insert (.ok F.nan) = { a with frustrated := a.frustrated + 1 } ∧
    a.insert (.ok F.nan) = a.insert (.error ()) := by
  have h : a.insert (.ok F.nan) = { a with frustrated := a.frustrated + 1 } := by
    simp [Apdex.insert, F.le]
  exact ⟨h, h.trans rfl⟩

/-- C9: a zero assumed hit rate adds zero simulated hits — `with_hit_rate`
with rate `0.0` coincides with `with_respnse_times`. -/
theorem C9_zero_hit_rate (th : F) (samples : List (Except Unit F)) :
    Apdex.with_hit_rate th (F.fin 0) samples = Apdex.with_respnse_times th samples := by
  simp [Apdex.with_hit_rate, F.sub, F.div, F.ofU64, F.ceil, F.toU64]

/-- C10: with a positive threshold, an `Ok` sample with a negative (finite)
response time is silently counted as satisfied. -/
theorem C10_negative_time_satisfied (a : Apdex) (th t : ℚ) (hth : a.threshold = F.fin th)
    (hpos : 0 < th) (hneg : t < 0) :
    a.insert (.ok (F.fin t)) = { a with satisfied := a.satisfied + 1 } := by
  have hle : t ≤ th := (hneg.trans hpos).le
  simp [Apdex.insert, hth, F.le, hle]

/-- C10 witness: inserting `Ok (-1)` at threshold 4 increments satisfied. -/
theorem C10_negative_time_satisfied_witness :
    (Apdex.new (F.fin 4)).insert (.ok (F.fin (-1))) =
      { Apdex.new (F.fin 4) with satisfied := (Apdex.new (F.fin 4)).satisfied + 1 } :=
  C10_negative_time_satisfied (Apdex.new (F.fin 4)) 4 (-1) rfl (by norm_num) (by norm_num)

/-- C6: `rating_word()` is `"NoSample"` exactly when `score()` is `None`;
otherwise the first of the descending closed-left bands 0.94 / 0.85 / 0.70 /
0.50 reached by the score names the word, else `"Unacceptable"`. -/
theorem C6_rating_word (a : Apdex) :
    (a.rating_word = "NoSample" ↔ a.score = none) ∧
    (∀ q : ℚ, a.score = some (F.fin q) →
      a.rating_word =
        if 94 / 100 ≤ q then "Excellent"
        else if 85 / 100 ≤ q then "Good"
        else if 70 / 100 ≤ q then "Fair"
        else if 50 / 100 ≤ q then "Poor"
        else "Unacceptable") := by
  constructor
  · cases hs : a.score with
    | none => simp [Apdex.rating_word, hs]
    | some v =>
      have hne : a.rating_word ≠ "NoSample" := by
        simp only [Apdex.rating_word, hs]
        split_ifs <;> decide
      simp [hne, hs]
  · intro q hq
    simp only [Apdex.rating_word, hq, F.le, decide_eq_true_eq]

/-- C6 witness: one satisfied sample scores 1 and rates `"Excellent"`. -/
theorem C6_rating_word_witness :
    ({ threshold := F.fin 4, satisfied := 1, tolerating := 0, frustrated := 0 : Apdex}.score =
      some (F.fin 1)) ∧
    { threshold := F.fin 4, satisfied := 1, tolerating := 0, frustrated := 0 : Apdex}.rating_word
      = "Excellent" := by
  have hs : ({ threshold := F.fin 4, satisfied := 1, tolerating := 0, frustrated := 0 : Apdex}.score
      = some (F.fin 1)) := by
    rw [Apdex.score_eq _ (by decide)]
    norm_num [Apdex.total]
  have h := (C6_rating_word
    { threshold := F.fin 4, satisfied := 1, tolerating := 0, frustrated := 0 }).2 1 hs
  rw [h]
  exact ⟨hs, by norm_num⟩

/-- C5 counterexample: at `assumed_hit_rate = 1.0` the call is not rejected
at the API boundary — `with_hit_rate` returns an ordinary accumulator (here,
with no samples, the `0/0 = NaN` hit count is cast to `0` by `as u64` and
the classification result comes back unchanged). -/
theorem C5_counterexample :
    Apdex.with_hit_rate (F.fin 4) (F.fin 1) [] = Apdex.new (F.fin 4) := by
  simp [Apdex.with_hit_rate, Apdex.with_respnse_times, Apdex.total, Apdex.new,
    F.sub, F.div, F.ofU64, F.ceil, F.toU64]

/-- C5 amended: `with_hit_rate` does not reject `assumed_hit_rate ≥ 1.0`; the
call returns normally, the non-finite float intermediate being absorbed by
the saturating `as u64` cast — with no samples the hit count is `0` and the
accumulator is returned unchanged. -/
theorem C5_no_rejection (th : F) (r : ℚ) (_hr : 1 ≤ r) :
    Apdex.with_hit_rate th (F.fin r) [] = Apdex.new th := by
  by_cases h : (1 : ℚ) - r = 0 <;>
    simp [Apdex.with_hit_rate, Apdex.with_respnse_times, Apdex.total, Apdex.new,
      F.sub, F.div, F.ofU64, F.ceil, F.toU64, h]

/-- C5 amended witness: rate exactly 1.0 with no samples returns `new 4.0`. -/
theorem C5_no_rejection_witness :
    (1 : ℚ) ≤ 1 ∧ Apdex.with_hit_rate (F.fin 4) (F.fin 1) [] = Apdex.new (F.fin 4) :=
  ⟨le_refl 1, C5_no_rejection (F.fin 4) 1 (le_refl 1)⟩

/-- C3: for a hit rate `r ∈ [0,1)` whose simulated hit count fits `u64`,
`with_hit_rate` equals `with_respnse_times` with exactly
`⌈misses/(1-r) - misses⌉` added to satisfied (`misses = total()`), the other
fields unchanged. -/
theorem C3_with_hit_rate (th : F) (r : ℚ) (samples : List (Except Unit F))
    (h0 : 0 ≤ r) (h1 : r < 1)
    (hfit : ⌈((Apdex.with_respnse_times th samples).total : ℚ) / (1 - r) -
        ((Apdex.with_respnse_times th samples).total : ℚ)⌉ ≤ 2 ^ 64 - 1) :
    Apdex.with_hit_rate th (F.fin r) samples =
      { Apdex.with_respnse_times th samples with
        satisfied := (Apdex.with_respnse_times th samples).satisfied +
          (⌈((Apdex.with_respnse_times th samples).total : ℚ) / (1 - r) -
            ((Apdex.with_respnse_times th samples).total : ℚ)⌉).toNat } := by
  set b := Apdex.with_respnse_times th samples with hb
  set m : ℚ := (b.total : ℚ) with hm
  have hden : (1 : ℚ) - r ≠ 0 := by intro h; apply absurd h1; rw [not_lt]; linarith
  have hdenpos : (0 : ℚ) < 1 - r := by linarith
  have hm0 : (0 : ℚ) ≤ m := by rw [hm]; exact Nat.cast_nonneg _
  have hexpr : (0 : ℚ) ≤ m / (1 - r) - m := by
    have hkey : m / (1 - r) - m = m * r / (1 - r) := by field_simp; ring
    rw [hkey]
    exact div_nonneg (mul_nonneg hm0 h0) hdenpos.le
  have hceil0 : (0 : ℤ) ≤ ⌈m / (1 - r) - m⌉ := Int.ceil_nonneg hexpr
  have hhits : (F.sub (F.div (F.ofU64 b.total) (F.sub (F.fin 1) (F.fin r)))
      (F.ofU64 b.total)).ceil.toU64 = (⌈m / (1 - r) - m⌉).toNat := by
    simp only [F.sub, F.div, F.ofU64, F.ceil, F.toU64, if_neg hden, ← hm]
    rw [if_neg (not_lt.mpr (by exact_mod_cast hceil0))]
    rw [Int.floor_intCast]
    exact min_eq_left (le_trans (Int.toNat_le_toNat hfit) (by norm_num))
  simp only [Apdex.with_hit_rate, ← hb, hhits]

/-- C3 witness: threshold 1, rate 0.5, one satisfied sample — one miss, one
simulated hit, `satisfied = 2`. -/
theorem C3_with_hit_rate_witness :
    (0 : ℚ) ≤ 1 / 2 ∧ (1 / 2 : ℚ) < 1 ∧
    Apdex.with_hit_rate (F.fin 1) (F.fin (1 / 2)) [Except.ok (F.fin 0)] =
      { threshold := F.fin 1, satisfied := 2, tolerating := 0, frustrated := 0 } := by
  have hb : Apdex.with_respnse_times (F.fin 1) [Except.ok (F.fin 0)] =
      { threshold := F.fin 1, satisfied := 1, tolerating := 0, frustrated := 0 } := by
    norm_num [Apdex.with_respnse_times, Apdex.insert, Apdex.new, F.le]
  have harg : ((1 : ℚ)) / (1 - 1 / 2) - 1 = 1 := by norm_num
  have hfit : ⌈((Apdex.with_respnse_times (F.fin 1) [Except.ok (F.fin 0)]).total : ℚ) /
      (1 - 1 / 2) - ((Apdex.with_respnse_times (F.fin 1) [Except.ok (F.fin 0)]).total : ℚ)⌉ ≤
      (2 : ℤ) ^ 64 - 1 := by
    rw [hb]
    show ⌈((1 : ℕ) : ℚ) / (1 - 1 / 2) - ((1 : ℕ) : ℚ)⌉ ≤ (2 : ℤ) ^ 64 - 1
    rw [Nat.cast_one, harg, Int.ceil_one]
    norm_num
  refine ⟨by norm_num, by norm_num, ?_⟩
  rw [C3_with_hit_rate (F.fin 1) (1 / 2) [Except.ok (F.fin 0)] (by norm_num) (by norm_num) hfit,
    hb]
  show ({ threshold := F.fin 1, satisfied := 1 + (⌈((1 : ℕ) : ℚ) / (1 - 1 / 2) -
      ((1 : ℕ) : ℚ)⌉).toNat, tolerating := 0, frustrated := 0 } : Apdex) = _
  rw [Nat.cast_one, harg, Int.ceil_one]
  rfl

/-- C7: both renderings append the same suffix — `" ["`, the threshold with
one decimal below 10 and as an integer otherwise, `"]"`, then `"*"` iff
`0 < total() < 100` — and the score rendering prefixes it with the score to
two decimals, or the literal `"NS"` when undefined: zero samples render
`"NS [4.0]"` at threshold 4.0 and `"NS [10]"` at threshold 10.0, one
satisfied sample at threshold 4.0 renders `"1.00 [4.0]*"`. -/
theorem C7_uniform_output (a : Apdex) :
    a.display = (match a.score with
      | some s => s.fmtFixed 2
      | none => "NS") ++ a.write_threshold ∧
    a.rating_display = a.rating_word ++ a.write_threshold ∧
    a.write_threshold =
      " [" ++ (if F.lt a.threshold (F.fin 10) then a.threshold.fmtFixed 1
        else a.threshold.fmtFixed 0) ++ "]" ++
        (if 0 < a.total ∧ a.total < 100 then "*" else "") ∧
    Apdex.defaultApdex.display = "NS [4.0]" ∧
    (Apdex.new (F.fin 10)).display = "NS [10]" ∧
    ({ Apdex.defaultApdex with satisfied := 1 } : Apdex).display = "1.00 [4.0]*" := by
  have hstar : (if a.small_group then "*" else "") =
      (if 0 < a.total ∧ a.total < 100 then "*" else "") := by
    by_cases h : 0 < a.total ∧ a.total < 100
    · have hsg : a.small_group = true := by
        simp only [Apdex.small_group, Bool.and_eq_true, decide_eq_true_eq]
        exact ⟨h.1, h.2⟩
      simp [hsg, h]
    · have hsg : a.small_group = false := by
        simp only [Apdex.small_group, Bool.and_eq_false_iff, decide_eq_false_iff_not]
        omega
      simp [hsg, h]
  refine ⟨rfl, rfl, ?_, ?_, ?_, ?_⟩
  · simp only [Apdex.write_threshold, hstar]
    split_ifs <;> simp [String.append_assoc]
  all_goals norm_num [Apdex.display, Apdex.score, Apdex.no_samples, Apdex.total,
    Apdex.write_threshold, Apdex.small_group, Apdex.defaultApdex, Apdex.new,
    F.lt, F.fmtFixed, F.div, F.add, F.ofU64, fmtFixedQ, roundHalfEven, padDigits,
    Int.floor_eq_iff]
  all_goals rfl
